import Mathlib

/-!
Verification development for the ralph-tui core: the Codex agent plugin's
JSONL stream parsing (src/unnamed/part_005), the parallel Worker lifecycle,
the process runner, and sandbox mode detection.

JavaScript strings that take part in chunk splitting are modelled as
`List Char`; the JavaScript builtin `JSON.parse` and OS facilities
(process spawning, PATH probing) are modelled as explicit function
parameters, so every definition stays executable.
-/

/-- A JSON value, as produced by a successful `JSON.parse` call.
Numbers are modelled as integers: no claim in this development depends on
fractional numeric values, only on strict equality with string constants
and on JavaScript truthiness (where only `0` matters). Object field lists
are assumed key-unique, as `JSON.parse` resolves duplicate keys. -/
inductive Json where
  | null : Json
  | bool : Bool → Json
  | num : Int → Json
  | str : String → Json
  | arr : List Json → Json
  | obj : List (String × Json) → Json

/-- Property lookup `v[k]` on a JSON value: `none` models JavaScript
`undefined` (missing key, or property access on a non-object primitive,
which yields `undefined` without throwing). Access on `Json.null` is
handled separately at each use site, since `null.k` throws in JS while
`null?.k` is `undefined`. -/
def Json.getField : Json → String → Option Json
  | .obj fs, k => (fs.find? (fun p => p.1 == k)).map Prod.snd
  | _, _ => none

/-- JavaScript truthiness of a possibly-`undefined` value:
`undefined`, `null`, `false`, `0` and the empty string are falsy. -/
def jsTruthy : Option Json → Bool
  | none => false
  | some .null => false
  | some (.bool b) => b
  | some (.num n) => n != 0
  | some (.str s) => !s.isEmpty
  | some (.arr _) => true
  | some (.obj _) => true

/-- JavaScript `a || b` on possibly-`undefined` values: the first operand
when it is truthy, otherwise the second operand (even when falsy). -/
def jsOr (a b : Option Json) : Option Json :=
  if jsTruthy a then a else b

/-- JavaScript `a || b || d` where `d` is a truthy constant default. -/
def jsOrDefault (a b : Option Json) (d : Json) : Json :=
  if jsTruthy a then a.getD d else if jsTruthy b then b.getD d else d

/-- JavaScript `o?.k`: `undefined` when `o` is `null` or `undefined`,
otherwise property access (which is `undefined` on primitives). -/
def jsOptChain (o : Option Json) (k : String) : Option Json :=
  match o with
  | none => none
  | some v => Json.getField v k

/-- JavaScript strict equality `v === "s"` of a possibly-`undefined`
value with a string literal. -/
def jsStrEq (o : Option Json) (s : String) : Bool :=
  match o with
  | some (.str t) => t == s
  | _ => false

/-- JavaScript `s1 || s2` on plain strings: empty strings are falsy. -/
def jsOrStr (a b : String) : String :=
  if a.isEmpty then b else a

/-- Left brace character, for JSON serialization. -/
def lbraceStr : String := String.singleton (Char.ofNat 123)

/-- Right brace character, for JSON serialization. -/
def rbraceStr : String := String.singleton (Char.ofNat 125)

/-- Escape one character for a JSON string literal (the escapes relevant
to values that round-trip through `JSON.parse`). -/
def jsonEscapeChar (c : Char) : String :=
  if c = '"' then "\\\""
  else if c = '\\' then "\\\\"
  else if c = '\n' then "\\n"
  else if c = '\t' then "\\t"
  else if c = '\r' then "\\r"
  else String.singleton c

/-- A JSON string literal with quotes and escapes. -/
def jsonQuote (s : String) : String :=
  "\"" ++ String.join (s.toList.map jsonEscapeChar) ++ "\""

/-- Model of `JSON.stringify` on parsed JSON values (always succeeds:
parsed values are acyclic, so the `catch` fallback in the source is
unreachable). -/
def Json.stringify : Json → String
  | .null => "null"
  | .bool b => if b then "true" else "false"
  | .num n => toString n
  | .str s => jsonQuote s
  | .arr xs =>
      "[" ++ String.intercalate "," (xs.attach.map (fun x => Json.stringify x.1)) ++ "]"
  | .obj fs =>
      lbraceStr ++
        String.intercalate ","
          (fs.attach.map (fun f => jsonQuote f.1.1 ++ ":" ++ Json.stringify f.1.2)) ++
        rbraceStr
decreasing_by
  · have := List.sizeOf_lt_of_mem x.2
    simp only [Json.arr.sizeOf_spec]
    omega
  · have h1 := List.sizeOf_lt_of_mem f.2
    have h2 : sizeOf f.1.2 < sizeOf f.1 := by
      obtain ⟨a, b⟩ := f.1
      simp only [Prod.mk.sizeOf_spec]
      omega
    simp only [Json.obj.sizeOf_spec]
    omega

/-- `extractErrorMessage` from the Codex plugin (part_005 lines 194-209):
normalizes a heterogeneous error payload into one display string.
Falsy payloads give the empty string; strings pass through; objects
prefer a string `message` then a string `error` field, else are
serialized; remaining primitives are converted with `String(err)`.
(`typeof` classifies arrays as objects; their `message` lookup is
`undefined`, so they fall to serialization.) -/
def extractErrorMessage (err : Option Json) : String :=
  if jsTruthy err = false then ""
  else
    match err with
    | some (.str s) => s
    | some (.obj fs) =>
        match Json.getField (.obj fs) "message" with
        | some (.str m) => m
        | _ =>
            match Json.getField (.obj fs) "error" with
            | some (.str m) => m
            | _ => Json.stringify (.obj fs)
    | some (.arr xs) => Json.stringify (.arr xs)
    | some (.bool b) => if b then "true" else "false"
    | some (.num n) => toString n
    | some .null => ""
    | none => ""

/-- The normalized display event variant set shared by all agent plugins
(`AgentDisplayEvent` in the source). Payloads are kept as the raw JSON
values the source would store in the event objects. -/
inductive AgentDisplayEvent where
  | text (content : Json)
  | tool_use (name : Json) (input : Option Json)
  | tool_result
  | error (message : String)

/-- Branch condition for message records (part_005 line 229):
`event.type === 'message' || event.message`. -/
def condMessage (e : Json) : Bool :=
  jsStrEq (Json.getField e "type") "message" || jsTruthy (Json.getField e "message")

/-- Branch condition for function-call records (part_005 line 249):
`event.type === 'function_call' || event.function_call`. -/
def condFunctionCall (e : Json) : Bool :=
  jsStrEq (Json.getField e "type") "function_call" || jsTruthy (Json.getField e "function_call")

/-- Branch condition for tool-result records (part_005 line 255). -/
def condCallOutput (e : Json) : Bool :=
  jsStrEq (Json.getField e "type") "function_call_output" ||
    jsStrEq (Json.getField e "type") "tool_result"

/-- Branch condition for plain text records (part_005 line 263):
`event.type === 'text' && event.text`. -/
def condText (e : Json) : Bool :=
  jsStrEq (Json.getField e "type") "text" && jsTruthy (Json.getField e "text")

/-- Branch condition for error records (part_005 line 266):
`event.type === 'error' || event.error`. -/
def condError (e : Json) : Bool :=
  jsStrEq (Json.getField e "type") "error" || jsTruthy (Json.getField e "error")

/-- `part.name || part.function?.name || 'unknown'` (part_005 lines 241, 252). -/
def toolNameOf (c : Json) : Json :=
  jsOrDefault (Json.getField c "name") (jsOptChain (Json.getField c "function") "name")
    (.str "unknown")

/-- Events contributed by one element of a message `content` array:
a text part, a tool-use part, or nothing (part_005 lines 237-244). -/
def partEvents (part : Json) : List AgentDisplayEvent :=
  if condText part then
    [AgentDisplayEvent.text ((Json.getField part "text").getD .null)]
  else if jsStrEq (Json.getField part "type") "tool_use" ||
      jsStrEq (Json.getField part "type") "function_call" then
    [AgentDisplayEvent.tool_use (toolNameOf part)
      (jsOr (Json.getField part "input") (jsOptChain (Json.getField part "function") "arguments"))]
  else []

/-- The `for (const part of content)` loop of the message branch.
Returns `none` when a `null` element is reached: `part.type` on `null`
throws a TypeError that the enclosing `catch` turns into an empty result
for the whole line, discarding events already pushed. -/
def contentPartsEvents : List Json → Option (List AgentDisplayEvent)
  | [] => some []
  | .null :: _ => none
  | part :: rest => (contentPartsEvents rest).map (fun evs => partEvents part ++ evs)

/-- Events of the message branch (part_005 lines 229-248), after the
user-role filter has been passed: `event.content || event.message?.content`,
then array contents, a plain string, or nothing. -/
def messageEvents (e : Json) : List AgentDisplayEvent :=
  match jsOr (Json.getField e "content") (jsOptChain (Json.getField e "message") "content") with
  | some (.arr parts) => (contentPartsEvents parts).getD []
  | some (.str s) => [AgentDisplayEvent.text (.str s)]
  | _ => []

/-- Events of the function-call branch (part_005 lines 249-254). -/
def functionCallEvents (e : Json) : List AgentDisplayEvent :=
  let call := if jsTruthy (Json.getField e "function_call") then
      (Json.getField e "function_call").getD .null
    else e
  [AgentDisplayEvent.tool_use (toolNameOf call)
    (jsOr (Json.getField call "arguments") (Json.getField call "input"))]

/-- Events of the tool-result branch (part_005 lines 255-262): an error
event when `event.is_error === true` or an `error` field is present
(even a `null` one), then always a `tool_result` event. -/
def callOutputEvents (e : Json) : List AgentDisplayEvent :=
  let isErr := jsStrEq' (Json.getField e "is_error") || (Json.getField e "error").isSome
  (if isErr then
      [AgentDisplayEvent.error
        (jsOrStr (extractErrorMessage (Json.getField e "error")) "tool execution failed")]
    else []) ++ [AgentDisplayEvent.tool_result]
where
  /-- `event.is_error === true`. -/
  jsStrEq' (o : Option Json) : Bool :=
    match o with
    | some (.bool true) => true
    | _ => false

/-- Events of the error branch (part_005 lines 266-270). -/
def errorBranchEvents (e : Json) : List AgentDisplayEvent :=
  [AgentDisplayEvent.error
    (jsOrStr (extractErrorMessage (Json.getField e "error"))
      (jsOrStr (extractErrorMessage (Json.getField e "message")) "Unknown error"))]

/-- The event dispatch of `parseCodexJsonLine` on a successfully parsed
record (part_005 lines 225-272). A `null` record yields no events: in the
source, evaluating `event.type` on `null` throws and the enclosing
`catch` returns the empty list. -/
def codexLineEvents : Json → List AgentDisplayEvent
  | .null => []
  | e =>
    if condMessage e then
      if jsStrEq (Json.getField e "role") "user" then []
      else messageEvents e
    else if condFunctionCall e then functionCallEvents e
    else if condCallOutput e then callOutputEvents e
    else if condText e then [AgentDisplayEvent.text ((Json.getField e "text").getD .null)]
    else if condError e then errorBranchEvents e
    else []

/-- `parseCodexJsonLine` (part_005 lines 221-277): the per-line Codex
protocol parser. `jsonParse` models the JavaScript builtin `JSON.parse`;
a parse failure is the thrown `SyntaxError` that the source absorbs into
an empty event list. Empty lines are rejected up front. -/
def parseCodexJsonLine (jsonParse : List Char → Option Json)
    (jsonLine : List Char) : List AgentDisplayEvent :=
  if jsonLine.isEmpty then []
  else
    match jsonParse jsonLine with
    | none => []
    | some e => codexLineEvents e

/-- JavaScript whitespace characters relevant to `String.prototype.trim`. -/
def jsWhitespaceChar (c : Char) : Bool :=
  c == ' ' || c == '\t' || c == '\n' || c == '\r' ||
    c == Char.ofNat 11 || c == Char.ofNat 12

/-- `line.trim()` on a character list. -/
def jsTrim (s : List Char) : List Char :=
  ((s.dropWhile jsWhitespaceChar).reverse.dropWhile jsWhitespaceChar).reverse

/-- `parseCodexOutputToEvents` (part_005 lines 282-289): split on
newlines, trim each line, and concatenate the per-line events. -/
def parseCodexOutputToEvents (jsonParse : List Char → Option Json)
    (data : List Char) : List AgentDisplayEvent :=
  ((data.splitOn '\n').map (fun line => parseCodexJsonLine jsonParse (jsTrim line))).flatten

/-- `data.endsWith('\n')`. -/
def jsEndsWithNL (s : List Char) : Bool :=
  s.getLast? == some '\n'

/-- One invocation of the wrapped `onStdout` callback installed by
`CodexAgentPlugin.execute` (part_005 lines 520-570): prepend the buffered
partial line, split on newlines, buffer the trailing incomplete line
(`lines.pop() || ''`) unless the chunk ended with a newline, rejoin the
complete lines and parse them into display events. Returns the new buffer
and the display events derived from this chunk. -/
def codexOnStdout (jsonParse : List Char → Option Json)
    (jsonlBuffer : List Char) (data : List Char) :
    List Char × List AgentDisplayEvent :=
  let combined := jsonlBuffer ++ data
  let lines := combined.splitOn '\n'
  if jsEndsWithNL data then
    ([], parseCodexOutputToEvents jsonParse (List.intercalate ['\n'] lines))
  else
    ((lines.getLast?).getD [],
      parseCodexOutputToEvents jsonParse (List.intercalate ['\n'] lines.dropLast))

/-- Delivering a sequence of stdout chunks to the wrapped callback,
threading the JSONL buffer (initialized to the empty string when
`execute` builds the closure). Returns the final buffer and the
concatenation of all emitted display events, in order. -/
def codexExecuteStdout (jsonParse : List Char → Option Json) :
    List Char → List (List Char) → List Char × List AgentDisplayEvent
  | buf, [] => (buf, [])
  | buf, d :: ds =>
    let r1 := codexOnStdout jsonParse buf d
    let r2 := codexExecuteStdout jsonParse r1.1 ds
    (r2.1, r1.2 ++ r2.2)

/-- The completed (newline-terminated) records of a stream: all split
segments except the trailing one, which is unterminated. -/
def completedLines (s : List Char) : List (List Char) :=
  (s.splitOn '\n').dropLast

/-- The display events derived from exactly the completed records of a
stream. -/
def completedEvents (jsonParse : List Char → Option Json) (s : List Char) :
    List AgentDisplayEvent :=
  ((completedLines s).map (fun l => parseCodexJsonLine jsonParse (jsTrim l))).flatten

/-! ### Worker model

The parallel Worker implementation file is not among the provided
sources; only its test suite (src/src/parallel/worker.test.ts) is.
The definitions below are therefore modelled from the specification
(sections 3, 4.5 and 8), with the tests fixing concrete values. -/

/-- Modelled from the spec: the tracker Task record of section 3. The
Worker implementation and tracker types are missing from the sources. -/
structure TrackerTask where
  id : String
  title : String
  status : String
  priority : Nat
deriving DecidableEq

/-- Modelled from the spec: WorkerConfig of section 3, immutable for the
Worker's lifetime. -/
structure WorkerConfig where
  id : String
  task : TrackerTask
  worktreePath : String
  branchName : String
  cwd : String

/-- Worker status values of spec section 4.5. -/
inductive WorkerStatus where
  | idle
  | running
  | paused
  | completed
  | cancelled
  | error
deriving DecidableEq

/-- Modelled from the spec: WorkerDisplayState of section 3, a derived
snapshot with no independent identity. -/
structure WorkerDisplayState where
  id : String
  status : WorkerStatus
  task : TrackerTask
  currentIteration : Nat
  maxIterations : Nat
  lastOutput : String
  elapsedMs : Nat
  commitSha : Option String
  worktreePath : String
  branchName : String
deriving DecidableEq

/-- Modelled from the spec: WorkerResult of section 3, produced exactly
once per start() invocation. -/
structure WorkerResult where
  success : Bool
  taskCompleted : Bool
  commitCount : Nat
  commitSha : Option String
  error : Option String
deriving DecidableEq

/-- Engine state snapshot exposed by getState() (spec section 4.4). -/
structure EngineState where
  tasksCompleted : Nat
  currentIteration : Nat

/-- Engine events the Worker observes while a run is in progress: the
auto-committed signal carrying a commit identifier (spec section 4.4
step c), and iteration progress data feeding the display snapshot. -/
inductive EngineEvent where
  | autoCommitted (commitSha : String)
  | progress (iteration : Nat) (output : String) (elapsedMs : Nat)

/-- One observable step of a bound engine during start(): emitting an
event into the Worker, or calling the Worker's stop() mid-run (as the
cancellation test does). -/
inductive EngineAction where
  | emit (e : EngineEvent)
  | stopWorker

/-- Modelled from the spec: the behavior of the bound ExecutionEngine
during one start() invocation — the ordered actions it performs, whether
its start() raised (with the message) or returned, and its final
getState() snapshot. -/
structure EngineRun where
  actions : List EngineAction
  raised : Option String
  finalState : EngineState

/-- Modelled from the spec: worker lifecycle notifications of section 3. -/
inductive ParallelEvent where
  | workerStarted (state : WorkerDisplayState)
  | workerProgress (state : WorkerDisplayState)
  | workerCompleted (result : WorkerResult)
  | workerFailed (result : WorkerResult)

/-- Modelled from the spec: the Worker of section 4.5. Holds the static
config, per-run accumulators, engine-observed display data, and the
listener registries (explicit handle registries per the design note of
section 9, so repeated removal is a no-op). The bound engine is
represented by the `engineBound` flag; its behavior during a run is
supplied to `Worker.start` as an `EngineRun`. -/
structure Worker where
  config : WorkerConfig
  maxIterations : Nat
  status : WorkerStatus
  engineBound : Bool
  enginePaused : Bool
  commitCount : Nat
  commitSha : Option String
  currentIteration : Nat
  lastOutput : String
  elapsedMs : Nat
  nextListenerId : Nat
  listeners : List (Nat × (ParallelEvent → Unit))
  nextEngineListenerId : Nat
  engineListeners : List (Nat × (EngineEvent → Unit))

/-- A freshly constructed Worker: idle, no engine, zeroed accumulators. -/
def Worker.new (config : WorkerConfig) (maxIterations : Nat) : Worker :=
  { config := config
    maxIterations := maxIterations
    status := .idle
    engineBound := false
    enginePaused := false
    commitCount := 0
    commitSha := none
    currentIteration := 0
    lastOutput := ""
    elapsedMs := 0
    nextListenerId := 0
    listeners := []
    nextEngineListenerId := 0
    engineListeners := [] }

/-- Modelled from the spec: getDisplayState() recomputes a snapshot
combining the static config with the latest engine-observed data. -/
def Worker.getDisplayState (w : Worker) : WorkerDisplayState :=
  { id := w.config.id
    status := w.status
    task := w.config.task
    currentIteration := w.currentIteration
    maxIterations := w.maxIterations
    lastOutput := w.lastOutput
    elapsedMs := w.elapsedMs
    commitSha := w.commitSha
    worktreePath := w.config.worktreePath
    branchName := w.config.branchName }

/-- Modelled from the spec: on each auto-committed engine event the
Worker increments commitCount and records the latest commitSha; progress
events refresh the display data. -/
def Worker.handleEngineEvent (w : Worker) : EngineEvent → Worker
  | .autoCommitted sha => { w with commitCount := w.commitCount + 1, commitSha := some sha }
  | .progress it out el => { w with currentIteration := it, lastOutput := out, elapsedMs := el }

/-- Modelled from the spec: stop() transitions status to cancelled, also
with no bound engine (idempotent, safe before initialization). -/
def Worker.stop (w : Worker) : Worker :=
  { w with status := .cancelled }

/-- One engine action applied to the Worker state during a run. -/
def Worker.stepAction (w : Worker) : EngineAction → Worker
  | .emit e => w.handleEngineEvent e
  | .stopWorker => w.stop

/-- The Worker state after the per-run accumulators are reset and the
engine run's actions have been observed. -/
def Worker.runActions (w : Worker) (run : EngineRun) : Worker :=
  run.actions.foldl Worker.stepAction
    { w with status := .running, commitCount := 0, commitSha := none }

/-- Modelled from the spec: start() fails immediately with a message
containing "not initialized" when no engine is bound; otherwise it resets
the per-run accumulators, observes the engine's events, and produces a
WorkerResult: a caught engine failure keeps the accumulated commitCount,
a run cancelled via stop() resolves with the error string used by the
cancellation scenario of spec section 8, and a normal completion reports
success with the accumulated commit data. -/
def Worker.start (w : Worker) (run : EngineRun) : Worker × Except String WorkerResult :=
  if w.engineBound = false then
    (w, Except.error ("Worker " ++ w.config.id ++ ": engine " ++ "not initialized"))
  else
    match run.raised with
    | some msg =>
        ({ w.runActions run with status := .error },
          Except.ok ⟨false, false, (w.runActions run).commitCount,
            (w.runActions run).commitSha, some msg⟩)
    | none =>
        if (w.runActions run).status = .cancelled then
          (w.runActions run,
            Except.ok ⟨false, false, (w.runActions run).commitCount,
              (w.runActions run).commitSha, some "Worker was cancelled"⟩)
        else
          ({ w.runActions run with
              status := .completed
              currentIteration := run.finalState.currentIteration },
            Except.ok ⟨true, run.finalState.tasksCompleted > 0,
              (w.runActions run).commitCount, (w.runActions run).commitSha, none⟩)

/-- Modelled from the spec: pause() forwards to the engine if present,
else is a no-op that never errors. -/
def Worker.pause (w : Worker) : Worker :=
  if w.engineBound then { w with enginePaused := true } else w

/-- Modelled from the spec: resume() forwards to the engine if present,
else is a no-op that never errors. -/
def Worker.resume (w : Worker) : Worker :=
  if w.engineBound then { w with enginePaused := false } else w

/-- Removal of a Worker-level listener handle by identity (the body of
the unsubscribe closure returned by on()). -/
def Worker.removeListener (hid : Nat) (w2 : Worker) : Worker :=
  { w2 with listeners := w2.listeners.filter (fun h => h.1 != hid) }

/-- Removal of an engine-event listener handle by identity (the body of
the unsubscribe closure returned by onEngineEvent()). -/
def Worker.removeEngineListener (hid : Nat) (w2 : Worker) : Worker :=
  { w2 with engineListeners := w2.engineListeners.filter (fun h => h.1 != hid) }

/-- Modelled from the spec: on() registers a Worker-level listener and
returns an unsubscribe function removing that handle by identity. -/
def Worker.on (w : Worker) (listener : ParallelEvent → Unit) :
    Worker × (Worker → Worker) :=
  ({ w with
      listeners := w.listeners ++ [(w.nextListenerId, listener)]
      nextListenerId := w.nextListenerId + 1 },
    Worker.removeListener w.nextListenerId)

/-- Modelled from the spec: onEngineEvent() registers a raw engine event
listener and returns an unsubscribe function removing its handle. -/
def Worker.onEngineEvent (w : Worker) (listener : EngineEvent → Unit) :
    Worker × (Worker → Worker) :=
  ({ w with
      engineListeners := w.engineListeners ++ [(w.nextEngineListenerId, listener)]
      nextEngineListenerId := w.nextEngineListenerId + 1 },
    Worker.removeEngineListener w.nextEngineListenerId)

/-- The commit identifiers carried by the auto-committed events of an
action sequence, in order. -/
def commitShas (actions : List EngineAction) : List String :=
  actions.filterMap (fun a =>
    match a with
    | .emit (.autoCommitted sha) => some sha
    | _ => none)

/-! ### Process runner model

The production ProcessRunner (src/utils/process.ts) is not among the
provided sources; the test-local `runProcess` in
src/tests/utils/fuzzy-search.test.ts (lines 252-320), documented to match
the production behavior, is, and is embedded here. The OS side of
`Bun.spawn` is modelled by an explicit outcome value. -/

/-- What the OS and the child process would do for one spawn: the
captured output streams, the exit code of a normal completion, how long
the child would run, and the exit status observed when the child is sent
SIGTERM (`none` models death by the signal itself; a child that traps
SIGTERM may still exit with any code, including 0). -/
structure ChildBehavior where
  stdout : String
  stderr : String
  exitCode : Int
  runtimeMs : Nat
  exitCodeAfterKill : Option Int

/-- Outcome of the `Bun.spawn` call: a synchronous spawn throw (outer
catch), a failure while awaiting the streams or exit (inner catch), or a
running child. -/
inductive SpawnOutcome where
  | spawnFailure (message : String)
  | streamFailure (message : String)
  | child (b : ChildBehavior)

/-- The result record `runProcess` resolves with. -/
structure RunProcessResult where
  exitCode : Option Int
  signal : Option String
  stdout : String
  stderr : String
  success : Bool
deriving DecidableEq

/-- `runProcess` (fuzzy-search.test.ts lines 252-320): never rejects;
spawn and stream failures resolve with the error message in stderr and
success false; with a timeout configured and the child outliving it, a
timer fires `proc.kill('SIGTERM')` and the result records the signal,
while success remains `exitCode === 0` on whatever exit status the
killed child produced. -/
def runProcess (timeout : Nat) (outcome : SpawnOutcome) : RunProcessResult :=
  match outcome with
  | .spawnFailure msg =>
      { exitCode := none, signal := none, stdout := "", stderr := msg, success := false }
  | .streamFailure msg =>
      { exitCode := none, signal := none, stdout := "", stderr := msg, success := false }
  | .child b =>
      let killed := 0 < timeout && timeout < b.runtimeMs
      let code : Option Int := if killed then b.exitCodeAfterKill else some b.exitCode
      { exitCode := code
        signal := if killed then some "SIGTERM" else none
        stdout := b.stdout
        stderr := b.stderr
        success := code == some (0 : Int) }

/-! ### Sandbox mode detection

Embedded from the test-local implementations in
src/tests/sandbox/detect.test.ts (documented to mirror
src/sandbox/detect.ts, which is not among the provided sources). The
`which`/`where` probe is modelled by an explicit predicate. -/

/-- The concrete sandbox modes; the request value `auto` is resolved away
and is not a member of this type. -/
inductive SandboxMode where
  | bwrap
  | sandboxExec
  | off
deriving DecidableEq

/-- `commandExists` (detect.test.ts lines 18-36): empty or
whitespace-only commands are rejected up front; otherwise the result is
that of probing PATH with `which` (or `where` on Windows), modelled by
`probeSucceeds` (false also covers a probe spawn failure, the catch). -/
def commandExists (probeSucceeds : String → Bool) (command : String) : Bool :=
  if (jsTrim command.toList).isEmpty then false else probeSucceeds command

/-- `detectSandboxMode` (detect.test.ts lines 99-114): resolve the auto
sandbox request to a concrete mode by platform and PATH probing. -/
def detectSandboxMode (platform : String) (probeSucceeds : String → Bool) : SandboxMode :=
  if platform == "linux" && commandExists probeSucceeds "bwrap" then .bwrap
  else if platform == "darwin" && commandExists probeSucceeds "sandbox-exec" then .sandboxExec
  else .off

/-- A reusable Worker fixture matching the test suite's configuration,
with an engine bound. -/
def exampleWorkerBound : Worker :=
  { Worker.new
      ⟨"w1", ⟨"T1", "Task T1", "open", 2⟩, "/tmp/worktrees/w1", "ralph-parallel/T1",
        "/tmp/project"⟩ 10 with
    engineBound := true }

/-! ### List splitting lemmas for the JSONL chunk buffering proof -/

/-- Every segment produced by `splitOnP` is free of separator elements. -/
theorem splitOnP_sep_not_mem {α : Type} (p : α → Bool) (xs : List α) :
    ∀ l ∈ xs.splitOnP p, ∀ a ∈ l, p a = false := by
  induction xs with
  | nil =>
    intro l hl a ha
    simp only [List.splitOnP_nil, List.mem_singleton] at hl
    subst hl
    simp at ha
  | cons x xs ih =>
    intro l hl a ha
    rw [List.splitOnP_cons] at hl
    by_cases hx : p x
    · simp only [hx, if_pos] at hl
      rcases List.mem_cons.mp hl with h | h
      · subst h; simp at ha
      · exact ih l h a ha
    · simp only [hx, if_neg, Bool.false_eq_true, not_false_iff] at hl
      obtain ⟨h0, t0, hs⟩ := List.exists_cons_of_ne_nil (List.splitOnP_ne_nil p xs)
      rw [hs] at hl
      simp only [List.modifyHead, List.mem_cons] at hl
      rcases hl with h | h
      · subst h
        rcases List.mem_cons.mp ha with h | h
        · subst h; simpa using hx
        · exact ih h0 (hs ▸ List.mem_cons_self h0 t0) a h
      · exact ih l (hs ▸ List.mem_cons_of_mem h0 h) a ha

/-- Splitting a concatenation: the left part contributes all its segments
except the last, the seam glues the left part's trailing segment to the
right part's leading segment, and the right part contributes the rest. -/
theorem splitOnP_append {α : Type} (p : α → Bool) (a b : List α) :
    (a ++ b).splitOnP p =
      (a.splitOnP p).dropLast ++
        (((a.splitOnP p).getLast?.getD []) ++ ((b.splitOnP p).head?.getD [])) ::
          (b.splitOnP p).tail := by
  induction a with
  | nil =>
    obtain ⟨bh, bt, hb⟩ := List.exists_cons_of_ne_nil (List.splitOnP_ne_nil p b)
    simp [List.splitOnP_nil, hb]
  | cons x a ih =>
    obtain ⟨h0, t0, ha⟩ := List.exists_cons_of_ne_nil (List.splitOnP_ne_nil p a)
    by_cases hx : p x
    · rw [List.cons_append, List.splitOnP_cons, if_pos hx, ih, List.splitOnP_cons, if_pos hx,
        ha]
      cases t0 with
      | nil => simp
      | cons t1 ts => simp
    · rw [List.cons_append, List.splitOnP_cons, if_neg (by simp [hx]), ih,
        List.splitOnP_cons, if_neg (by simp [hx]), ha]
      cases t0 with
      | nil => simp
      | cons t1 ts => simp

/-- `splitOn` form of `splitOnP_append` for character lists. -/
theorem splitOn_append (c : Char) (a b : List Char) :
    (a ++ b).splitOn c =
      (a.splitOn c).dropLast ++
        (((a.splitOn c).getLast?.getD []) ++ ((b.splitOn c).head?.getD [])) ::
          (b.splitOn c).tail :=
  splitOnP_append (· == c) a b

/-- A list without the separator splits into a single segment. -/
theorem splitOn_eq_single {c : Char} {l : List Char} (h : c ∉ l) : l.splitOn c = [l] := by
  apply List.splitOnP_eq_single
  intro x hx
  simp only [beq_iff_eq]
  intro he
  exact h (he ▸ hx)

/-- Segments of `splitOn c` do not contain `c`. -/
theorem splitOn_sep_not_mem (c : Char) (xs : List Char) :
    ∀ l ∈ xs.splitOn c, c ∉ l := by
  intro l hl hc
  have := splitOnP_sep_not_mem (· == c) xs l hl c hc
  simp at this

/-- When the right-hand side of a concatenation ends with the separator,
the concatenation's final split segment is empty. -/
theorem splitOn_getLast?_of_endsWith (c : Char) (pre s : List Char)
    (h : s.getLast? = some c) :
    ((pre ++ s).splitOn c).getLast? = some [] := by
  have hs : s.dropLast ++ [c] = s := List.dropLast_append_getLast? c h
  have : pre ++ s = (pre ++ s.dropLast) ++ [c] := by rw [List.append_assoc, hs]
  rw [this, splitOn_append c (pre ++ s.dropLast) [c]]
  have hc : ([c].splitOn c) = [[], []] := by
    simp [List.splitOn, List.splitOnP_cons, List.splitOnP_nil]
  rw [hc]
  simp

/-- Decomposing the completed lines of a concatenated stream at a chunk
boundary: the left side contributes all its split segments but the last,
whose text is carried into the remainder. -/
theorem completedLines_append (a rest : List Char) :
    completedLines (a ++ rest) =
      (a.splitOn '\n').dropLast ++
        completedLines (((a.splitOn '\n').getLast?.getD []) ++ rest) := by
  obtain ⟨bh, bt, hb⟩ := List.exists_cons_of_ne_nil (List.splitOnP_ne_nil (· == '\n') rest)
  have hgl : '\n' ∉ (a.splitOn '\n').getLast?.getD [] := by
    rcases hgl' : (a.splitOn '\n').getLast? with _ | g
    · simp
    · have hmem : g ∈ a.splitOn '\n' := by
        obtain ⟨hne, hg⟩ := List.mem_getLast?_eq_getLast (Option.mem_def.mpr hgl')
        rw [hg]
        exact List.getLast_mem hne
      simpa [hgl'] using splitOn_sep_not_mem '\n' a g hmem
  have h1 : completedLines (a ++ rest) =
      (a.splitOn '\n').dropLast ++
        ((((a.splitOn '\n').getLast?.getD []) ++ ((rest.splitOn '\n').head?.getD [])) ::
          (rest.splitOn '\n').tail).dropLast := by
    rw [completedLines, splitOn_append '\n' a rest,
      List.dropLast_append_of_ne_nil _ (List.cons_ne_nil _ _)]
  have h2 : completedLines (((a.splitOn '\n').getLast?.getD []) ++ rest) =
      ((((a.splitOn '\n').getLast?.getD []) ++ ((rest.splitOn '\n').head?.getD [])) ::
          (rest.splitOn '\n').tail).dropLast := by
    rw [completedLines, splitOn_append '\n' _ rest, splitOn_eq_single hgl]
    simp
  rw [h1, h2]

/-- An empty line parses to no events. -/
theorem parseCodexJsonLine_nil (jp : List Char → Option Json) :
    parseCodexJsonLine jp (jsTrim []) = [] := by
  simp [jsTrim, parseCodexJsonLine]

/-- Rejoining newline-free lines with newlines and reparsing them yields
exactly the concatenation of the per-line events (the join/split round
trip of `parseCodexOutputToEvents` over popped lines). -/
theorem parseCodexOutputToEvents_intercalate (jp : List Char → Option Json)
    (ls : List (List Char)) (h : ∀ l ∈ ls, '\n' ∉ l) :
    parseCodexOutputToEvents jp (List.intercalate ['\n'] ls) =
      (ls.map (fun l => parseCodexJsonLine jp (jsTrim l))).flatten := by
  cases ls with
  | nil =>
    simp [parseCodexOutputToEvents, List.intercalate, List.splitOn, List.splitOnP_nil,
      parseCodexJsonLine_nil]
  | cons hd tl =>
    rw [parseCodexOutputToEvents,
      List.splitOn_intercalate _ '\n' (by simpa using h) (List.cons_ne_nil hd tl)]

/-- The buffer left by one chunk never contains a newline. -/
theorem codexOnStdout_buffer_no_nl (jp : List Char → Option Json)
    (buf d : List Char) : '\n' ∉ (codexOnStdout jp buf d).1 := by
  rw [codexOnStdout]
  by_cases hend : jsEndsWithNL d
  · simp [hend]
  · simp only [hend, Bool.false_eq_true, if_neg, not_false_iff]
    rcases hgl : ((buf ++ d).splitOn '\n').getLast? with _ | g
    · simp
    · have hmem : g ∈ (buf ++ d).splitOn '\n' := by
        obtain ⟨hne, hg⟩ := List.mem_getLast?_eq_getLast (Option.mem_def.mpr hgl)
        rw [hg]
        exact List.getLast_mem hne
      simpa using splitOn_sep_not_mem '\n' (buf ++ d) g hmem

/-- The events one chunk emits, as a flattening over the split segments
it completes. -/
theorem codexOnStdout_events (jp : List Char → Option Json)
    (buf d : List Char) :
    (codexOnStdout jp buf d).2 =
      if jsEndsWithNL d then
        (((buf ++ d).splitOn '\n').map (fun l => parseCodexJsonLine jp (jsTrim l))).flatten
      else
        ((((buf ++ d).splitOn '\n').dropLast).map
          (fun l => parseCodexJsonLine jp (jsTrim l))).flatten := by
  rw [codexOnStdout]
  by_cases hend : jsEndsWithNL d
  · simp only [hend, if_pos]
    exact parseCodexOutputToEvents_intercalate jp _ (splitOn_sep_not_mem '\n' (buf ++ d))
  · simp only [hend, Bool.false_eq_true, if_neg, not_false_iff]
    exact parseCodexOutputToEvents_intercalate jp _
      (fun l hl => splitOn_sep_not_mem '\n' (buf ++ d) l (List.dropLast_subset _ hl))

/-- Event form of `completedLines_append`: the completed events of a
stream cut at a chunk boundary are the events of the left side's finished
segments followed by the completed events of the carried-over remainder. -/
theorem completedEvents_append (jp : List Char → Option Json) (a rest : List Char) :
    completedEvents jp (a ++ rest) =
      (((a.splitOn '\n').dropLast).map (fun l => parseCodexJsonLine jp (jsTrim l))).flatten ++
        completedEvents jp (((a.splitOn '\n').getLast?.getD []) ++ rest) := by
  rw [completedEvents, completedLines_append a rest]
  simp [completedEvents]

/-- Processing any chunk sequence from a newline-free buffer emits exactly
the events of the completed records of the buffered-then-received stream. -/
theorem codexExecuteStdout_spec (jp : List Char → Option Json)
    (cs : List (List Char)) :
    ∀ buf, '\n' ∉ buf →
      (codexExecuteStdout jp buf cs).2 = completedEvents jp (buf ++ cs.flatten) := by
  induction cs with
  | nil =>
    intro buf hbuf
    simp [codexExecuteStdout, completedEvents, completedLines, splitOn_eq_single hbuf]
  | cons d ds ih =>
    intro buf hbuf
    have hstep : (codexExecuteStdout jp buf (d :: ds)).2 =
        (codexOnStdout jp buf d).2 ++ (codexExecuteStdout jp (codexOnStdout jp buf d).1 ds).2 :=
      rfl
    have hflat : buf ++ (d :: ds).flatten = (buf ++ d) ++ ds.flatten := by
      simp [List.flatten_cons, List.append_assoc]
    rw [hstep, hflat, ih _ (codexOnStdout_buffer_no_nl jp buf d), codexOnStdout_events,
      completedEvents_append jp (buf ++ d) ds.flatten]
    by_cases hend : jsEndsWithNL d
    · have hd' : d.getLast? = some '\n' := by
        simpa [jsEndsWithNL] using hend
      have hlast : ((buf ++ d).splitOn '\n').getLast? = some [] :=
        splitOn_getLast?_of_endsWith '\n' buf d hd'
      have hdecomp : ((buf ++ d).splitOn '\n').dropLast ++ [[]] = (buf ++ d).splitOn '\n' :=
        List.dropLast_append_getLast? [] (Option.mem_def.mpr hlast)
      have hbuf1 : (codexOnStdout jp buf d).1 = [] := by
        rw [codexOnStdout]
        simp [hend]
      simp only [hend, if_pos, hbuf1, hlast]
      rw [← hdecomp]
      simp [parseCodexJsonLine_nil]
    · have hbuf1 : (codexOnStdout jp buf d).1 = ((buf ++ d).splitOn '\n').getLast?.getD [] := by
        rw [codexOnStdout]
        simp [hend]
      simp only [hend, Bool.false_eq_true, if_neg, not_false_iff, hbuf1]

/-- C1: for every JSONL stream and every way of splitting it into stdout
chunks, the Codex plugin's wrapped stdout handler emits exactly the
display events derived from the completed (newline-terminated) records —
the incomplete trailing record is buffered across chunk boundaries and
nothing is emitted twice — and the concatenated event sequence equals the
sequence produced when the whole stream arrives as one chunk. -/
theorem codexExecute_chunking_invariant :
    ∀ (jsonParse : List Char → Option Json) (chunks : List (List Char)),
      (codexExecuteStdout jsonParse [] chunks).2 = completedEvents jsonParse chunks.flatten ∧
      (codexExecuteStdout jsonParse [] chunks).2 =
        (codexExecuteStdout jsonParse [] [chunks.flatten]).2 := by
  intro jp cs
  have h1 := codexExecuteStdout_spec jp cs [] (by simp)
  have h2 := codexExecuteStdout_spec jp [cs.flatten] [] (by simp)
  constructor
  · simpa using h1
  · rw [h1, h2]
    simp

/-- Folding an engine action sequence into the Worker: the commit count
grows by the number of auto-commit events, the commit sha becomes the
last commit identifier (if any), and the engine binding is untouched. -/
theorem stepAction_foldl_spec (actions : List EngineAction) :
    ∀ w : Worker,
      (actions.foldl Worker.stepAction w).commitCount
          = w.commitCount + (commitShas actions).length ∧
      (actions.foldl Worker.stepAction w).commitSha
          = ((commitShas actions).getLast?).or w.commitSha ∧
      (actions.foldl Worker.stepAction w).engineBound = w.engineBound := by
  induction actions with
  | nil => intro w; simp [commitShas]
  | cons a as ih =>
    intro w
    rw [List.foldl_cons]
    obtain ⟨ih1, ih2, ih3⟩ := ih (w.stepAction a)
    cases a with
    | emit e =>
      cases e with
      | autoCommitted sha =>
        refine ⟨?_, ?_, ?_⟩
        · rw [ih1]
          simp [commitShas, Worker.stepAction, Worker.handleEngineEvent]
          omega
        · rw [ih2]
          have hsha : commitShas (.emit (.autoCommitted sha) :: as) = sha :: commitShas as := by
            simp [commitShas]
          rw [hsha]
          cases hcs : commitShas as with
          | nil => simp [Worker.stepAction, Worker.handleEngineEvent]
          | cons c cs =>
            obtain ⟨v, hv⟩ : ∃ v, (c :: cs).getLast? = some v :=
              ⟨(c :: cs).getLast (by simp), List.getLast?_eq_getLast _ _⟩
            simp [List.getLast?_cons_cons, hv, Option.or]
        · rw [ih3]; rfl
      | progress it out el =>
        refine ⟨?_, ?_, ?_⟩
        · rw [ih1]; simp [commitShas, Worker.stepAction, Worker.handleEngineEvent]
        · rw [ih2]; simp [commitShas, Worker.stepAction, Worker.handleEngineEvent]
        · rw [ih3]; rfl
    | stopWorker =>
      refine ⟨?_, ?_, ?_⟩
      · rw [ih1]; simp [commitShas, Worker.stepAction, Worker.stop]
      · rw [ih2]; simp [commitShas, Worker.stepAction, Worker.stop]
      · rw [ih3]; rfl

/-- The run-state facts in terms of `Worker.runActions`. -/
theorem worker_runActions_spec (w : Worker) (run : EngineRun) :
    (w.runActions run).commitCount = (commitShas run.actions).length ∧
    (w.runActions run).commitSha = (commitShas run.actions).getLast? ∧
    (w.runActions run).engineBound = w.engineBound := by
  obtain ⟨h1, h2, h3⟩ := stepAction_foldl_spec run.actions
    { w with status := .running, commitCount := 0, commitSha := none }
  rw [Option.or_none] at h2
  exact ⟨by simpa [Worker.runActions] using h1, by simpa [Worker.runActions] using h2,
    by simpa [Worker.runActions] using h3⟩

/-- With an engine bound, start() always resolves to a result whose
commit data is exactly that of the run's auto-commit events. -/
theorem worker_start_result_commits (w : Worker) (run : EngineRun)
    (h : w.engineBound = true) :
    ∃ r, (w.start run).2 = Except.ok r ∧
      r.commitCount = (commitShas run.actions).length ∧
      r.commitSha = (commitShas run.actions).getLast? := by
  rw [Worker.start, if_neg (by simp [h])]
  obtain ⟨h1, h2, _⟩ := worker_runActions_spec w run
  cases hr : run.raised with
  | some msg => exact ⟨_, rfl, h1, h2⟩
  | none =>
    by_cases hc : (w.runActions run).status = WorkerStatus.cancelled
    · rw [if_pos hc]
      exact ⟨_, rfl, h1, h2⟩
    · rw [if_neg hc]
      exact ⟨_, rfl, h1, h2⟩

/-- start() never changes whether an engine is bound. -/
theorem worker_start_preserves_engineBound (w : Worker) (run : EngineRun) :
    ((w.start run).1).engineBound = w.engineBound := by
  rw [Worker.start]
  by_cases h : w.engineBound = false
  · rw [if_pos h]
  · rw [if_neg h]
    obtain ⟨_, _, h3⟩ := worker_runActions_spec w run
    cases run.raised with
    | some msg => simpa using h3
    | none =>
      by_cases hc : (w.runActions run).status = WorkerStatus.cancelled
      · rw [if_pos hc]
        simpa using h3
      · rw [if_neg hc]
        simpa using h3

/-- C2: every start() call on a Worker with a bound engine resets the
per-run accumulators and produces a result whose commitCount is exactly
the number of auto-commit events of that run and whose commitSha is the
identifier of the latest such event — independent of any previously
accumulated state; in particular a second start() on the same Worker
reflects only the second run's events. -/
theorem worker_start_commit_accounting :
    ∀ (w : Worker) (run1 run2 : EngineRun), w.engineBound = true →
      (∃ r, (w.start run1).2 = Except.ok r ∧
          r.commitCount = (commitShas run1.actions).length ∧
          r.commitSha = (commitShas run1.actions).getLast?) ∧
      (∃ r, ((w.start run1).1.start run2).2 = Except.ok r ∧
          r.commitCount = (commitShas run2.actions).length ∧
          r.commitSha = (commitShas run2.actions).getLast?) := by
  intro w run1 run2 h
  refine ⟨worker_start_result_commits w run1 h, ?_⟩
  exact worker_start_result_commits _ run2
    ((worker_start_preserves_engineBound w run1).trans h)

/-- C2 witness: the two-commit run followed by an empty second run, as in
the worker tests. -/
theorem worker_start_commit_accounting_witness :
    (∃ r, (exampleWorkerBound.start
        ⟨[.emit (.autoCommitted "abc123"), .emit (.autoCommitted "def456")], none, ⟨1, 2⟩⟩).2 =
          Except.ok r ∧ r.commitCount = 2 ∧ r.commitSha = some "def456") ∧
    (∃ r, ((exampleWorkerBound.start
        ⟨[.emit (.autoCommitted "abc123"), .emit (.autoCommitted "def456")], none, ⟨1, 2⟩⟩).1.start
          ⟨[], none, ⟨1, 1⟩⟩).2 = Except.ok r ∧ r.commitCount = 0 ∧ r.commitSha = none) :=
  worker_start_commit_accounting exampleWorkerBound
    ⟨[.emit (.autoCommitted "abc123"), .emit (.autoCommitted "def456")], none, ⟨1, 2⟩⟩
    ⟨[], none, ⟨1, 1⟩⟩ rfl

/-- C3: a Worker whose engine run calls stop() mid-run still resolves
(start() does not throw) to a failed result with the error string
'Worker was cancelled' and the commitCount accumulated before
cancellation — partial progress is preserved. -/
theorem worker_cancelled_preserves_commits :
    ∀ (w : Worker) (pre : List EngineAction) (final : EngineState),
      w.engineBound = true →
      (w.start ⟨pre ++ [.stopWorker], none, final⟩).2 =
        Except.ok ⟨false, false, (commitShas pre).length, (commitShas pre).getLast?,
          some "Worker was cancelled"⟩ := by
  intro w pre final h
  rw [Worker.start, if_neg (by simp [h])]
  have hrun : w.runActions ⟨pre ++ [.stopWorker], none, final⟩ =
      Worker.stop (pre.foldl Worker.stepAction
        { w with status := .running, commitCount := 0, commitSha := none }) := by
    rw [Worker.runActions, List.foldl_append]
    rfl
  obtain ⟨h1, h2, _⟩ := stepAction_foldl_spec pre
    { w with status := .running, commitCount := 0, commitSha := none }
  rw [Option.or_none] at h2
  have hcanc : (w.runActions ⟨pre ++ [.stopWorker], none, final⟩).status =
      WorkerStatus.cancelled := by
    rw [hrun]
    rfl
  rw [if_pos hcanc, hrun]
  have hcount : (Worker.stop (pre.foldl Worker.stepAction
      { w with status := .running, commitCount := 0, commitSha := none })).commitCount =
        (commitShas pre).length := by
    simpa [Worker.stop] using h1
  have hsha : (Worker.stop (pre.foldl Worker.stepAction
      { w with status := .running, commitCount := 0, commitSha := none })).commitSha =
        (commitShas pre).getLast? := by
    simpa [Worker.stop] using h2
  rw [hcount, hsha]

/-- C3 witness: one commit then a mid-run stop(), as in the worker test. -/
theorem worker_cancelled_preserves_commits_witness :
    (exampleWorkerBound.start
        ⟨[.emit (.autoCommitted "cancelsha"), .stopWorker], none, ⟨1, 1⟩⟩).2 =
      Except.ok ⟨false, false, 1, some "cancelsha", some "Worker was cancelled"⟩ :=
  worker_cancelled_preserves_commits exampleWorkerBound
    [.emit (.autoCommitted "cancelsha")] ⟨1, 1⟩ rfl

/-- C7: on a Worker with no bound engine, start() fails with a message
containing "not initialized", stop() transitions the status to cancelled
and is safe to repeat, and pause()/resume() are no-ops that leave the
Worker (and so its status) unchanged. -/
theorem worker_uninitialized_operations :
    ∀ (cfg : WorkerConfig) (maxIterations : Nat) (run : EngineRun),
      (∃ pre post, ((Worker.new cfg maxIterations).start run).2 =
          Except.error (pre ++ "not initialized" ++ post)) ∧
      ((Worker.new cfg maxIterations).stop).status = .cancelled ∧
      ((Worker.new cfg maxIterations).stop.stop).status = .cancelled ∧
      ((Worker.new cfg maxIterations).stop.stop.stop).status = .cancelled ∧
      (Worker.new cfg maxIterations).pause = Worker.new cfg maxIterations ∧
      (Worker.new cfg maxIterations).resume = Worker.new cfg maxIterations := by
  intro cfg maxIterations run
  refine ⟨⟨"Worker " ++ cfg.id ++ ": engine ", "", ?_⟩, rfl, rfl, rfl, rfl, rfl⟩
  show ((Worker.new cfg maxIterations).start run).2 =
    Except.error (("Worker " ++ cfg.id ++ ": engine ") ++ "not initialized" ++ "")
  rw [Worker.start,
    if_pos (show (Worker.new cfg maxIterations).engineBound = false from rfl)]
  simp [Worker.new]

/-- C8: a freshly constructed Worker's display snapshot, before any
start(), is idle with zeroed iteration/output/elapsed data, no commit
sha, and the id, task, maxIterations, worktreePath and branchName taken
unchanged from the configuration. -/
theorem worker_initial_display_state :
    ∀ (cfg : WorkerConfig) (maxIterations : Nat),
      (Worker.new cfg maxIterations).getDisplayState =
        ⟨cfg.id, .idle, cfg.task, 0, maxIterations, "", 0, none,
          cfg.worktreePath, cfg.branchName⟩ :=
  fun _ _ => rfl

/-- Repeated listener removal of the same handle is a no-op. -/
theorem removeListener_idem (hid : Nat) (x : Worker) :
    Worker.removeListener hid (Worker.removeListener hid x) =
      Worker.removeListener hid x := by
  simp [Worker.removeListener, List.filter_filter]

/-- Repeated engine-listener removal of the same handle is a no-op. -/
theorem removeEngineListener_idem (hid : Nat) (x : Worker) :
    Worker.removeEngineListener hid (Worker.removeEngineListener hid x) =
      Worker.removeEngineListener hid x := by
  simp [Worker.removeEngineListener, List.filter_filter]

/-- C9: the unsubscribe functions returned by on() and onEngineEvent()
are idempotent and total: applying the same unsubscribe function three
times leaves exactly the state reached after applying it once. -/
theorem worker_unsubscribe_idempotent :
    ∀ (w : Worker) (f : ParallelEvent → Unit) (g : EngineEvent → Unit),
      (w.on f).2 ((w.on f).2 ((w.on f).2 (w.on f).1)) = (w.on f).2 (w.on f).1 ∧
      (w.onEngineEvent g).2 ((w.onEngineEvent g).2 ((w.onEngineEvent g).2
        (w.onEngineEvent g).1)) = (w.onEngineEvent g).2 (w.onEngineEvent g).1 := by
  intro w f g
  exact ⟨(removeListener_idem _ _).trans (removeListener_idem _ _),
    (removeEngineListener_idem _ _).trans (removeEngineListener_idem _ _)⟩

/-- C4 counterexample: a child that outlives a positive timeout is sent
SIGTERM, but if it traps the signal and still exits with code 0, the
result records signal SIGTERM with success true — success is computed
solely from the exit code, so the claimed success=false does not hold for
every invocation whose child outlives the bound. -/
theorem runProcess_timeout_kill_can_succeed :
    (runProcess 100 (.child ⟨"", "", 1, 10000, some 0⟩)).signal = some "SIGTERM" ∧
    (runProcess 100 (.child ⟨"", "", 1, 10000, some 0⟩)).success = true := by
  constructor <;> rfl

/-- C4 (amended): runProcess is total and never rejects; spawn and
stream failures resolve with success false and the error message in
stderr; a normally-completing child with non-zero exit yields success
false; and when timeoutMs is positive and the child outlives the bound
the result records signal SIGTERM, with success false whenever the
terminated child's exit status is not 0. -/
theorem runProcess_failure_modes :
    ∀ (t : Nat) (msg : String) (b : ChildBehavior),
      ((runProcess t (.spawnFailure msg)).success = false ∧
        (runProcess t (.spawnFailure msg)).stderr = msg) ∧
      ((runProcess t (.streamFailure msg)).success = false ∧
        (runProcess t (.streamFailure msg)).stderr = msg) ∧
      (0 < t → t < b.runtimeMs →
        (runProcess t (.child b)).signal = some "SIGTERM") ∧
      (0 < t → t < b.runtimeMs → b.exitCodeAfterKill ≠ some 0 →
        (runProcess t (.child b)).success = false) ∧
      (¬(0 < t ∧ t < b.runtimeMs) → b.exitCode ≠ 0 →
        (runProcess t (.child b)).success = false) := by
  intro t msg b
  refine ⟨⟨rfl, rfl⟩, ⟨rfl, rfl⟩, ?_, ?_, ?_⟩
  · intro h1 h2
    simp [runProcess, h1, h2]
  · intro h1 h2 h3
    simp [runProcess, h1, h2, beq_iff_eq, h3]
  · intro h1 h2
    have hk : (decide (0 < t) && decide (t < b.runtimeMs)) = false := by
      rcases Decidable.not_and_iff_or_not.mp h1 with h | h <;> simp [h]
    simp only [runProcess, hk, Bool.false_eq_true, if_neg, not_false_iff]
    simpa [beq_iff_eq] using h2

/-- C4 witness: the timeout test's child (runs 10 s under a 100 ms
bound, dies of the signal) and a plain non-zero exit. -/
theorem runProcess_failure_modes_witness :
    (runProcess 100 (.child ⟨"", "", 0, 10000, none⟩)).signal = some "SIGTERM" ∧
    (runProcess 100 (.child ⟨"", "", 0, 10000, none⟩)).success = false ∧
    (runProcess 0 (.child ⟨"", "", 1, 50, none⟩)).success = false :=
  ⟨(runProcess_failure_modes 100 "spawn ENOENT" ⟨"", "", 0, 10000, none⟩).2.2.1
      (by decide) (by decide),
    (runProcess_failure_modes 100 "spawn ENOENT" ⟨"", "", 0, 10000, none⟩).2.2.2.1
      (by decide) (by decide) (by decide),
    (runProcess_failure_modes 0 "spawn ENOENT" ⟨"", "", 1, 50, none⟩).2.2.2.2
      (by decide) (by decide)⟩

/-- C5: resolving the auto sandbox request never raises and never yields
an auto value (the result type has no such member): on linux it is bwrap
exactly when the bwrap binary probe succeeds and off otherwise, on
darwin it is sandbox-exec exactly when that probe succeeds and off
otherwise, and on every other platform it is off. -/
theorem detectSandboxMode_resolution :
    ∀ (probeSucceeds : String → Bool),
      (detectSandboxMode "linux" probeSucceeds =
        if probeSucceeds "bwrap" then SandboxMode.bwrap else SandboxMode.off) ∧
      (detectSandboxMode "darwin" probeSucceeds =
        if probeSucceeds "sandbox-exec" then SandboxMode.sandboxExec else SandboxMode.off) ∧
      (∀ platform, platform ≠ "linux" → platform ≠ "darwin" →
        detectSandboxMode platform probeSucceeds = SandboxMode.off) := by
  intro probe
  have hb : commandExists probe "bwrap" = probe "bwrap" := by
    rw [commandExists, if_neg (by simp [jsTrim, jsWhitespaceChar])]
  have hs : commandExists probe "sandbox-exec" = probe "sandbox-exec" := by
    rw [commandExists, if_neg (by simp [jsTrim, jsWhitespaceChar])]
  refine ⟨?_, ?_, ?_⟩
  · by_cases hp : probe "bwrap" <;>
      simp [detectSandboxMode, hb, hp]
  · by_cases hp : probe "sandbox-exec" <;>
      simp [detectSandboxMode, hs, hp]
  · intro platform h1 h2
    simp [detectSandboxMode, h1, h2]

/-- C5 witness: an unsupported platform resolves to off even when every
probe would succeed. -/
theorem detectSandboxMode_resolution_witness :
    detectSandboxMode "win32" (fun _ => true) = SandboxMode.off :=
  (detectSandboxMode_resolution (fun _ => true)).2.2 "win32" (by decide) (by decide)

/-- C6: the per-line Codex parser is total and defensive — a line on
which JSON.parse fails yields the empty event list (skipped silently),
and a successfully parsed record matching none of the recognized branch
shapes also yields the empty event list rather than failing. -/
theorem parseCodexJsonLine_total_defensive :
    ∀ (jsonParse : List Char → Option Json) (line : List Char),
      (jsonParse line = none → parseCodexJsonLine jsonParse line = []) ∧
      (∀ e, jsonParse line = some e →
        condMessage e = false → condFunctionCall e = false → condCallOutput e = false →
        condText e = false → condError e = false →
        parseCodexJsonLine jsonParse line = []) := by
  intro jp line
  constructor
  · intro h
    by_cases hl : line.isEmpty <;> simp [parseCodexJsonLine, hl, h]
  · intro e he h1 h2 h3 h4 h5
    by_cases hl : line.isEmpty
    · simp [parseCodexJsonLine, hl]
    · simp only [parseCodexJsonLine, hl, Bool.false_eq_true, if_neg, not_false_iff, he]
      cases e <;> simp [codexLineEvents, h1, h2, h3, h4, h5]

/-- C6 witness: a non-JSON line and a well-formed but unrecognized
record (a bare number). -/
theorem parseCodexJsonLine_total_defensive_witness :
    parseCodexJsonLine (fun _ => none) "not json".toList = [] ∧
    parseCodexJsonLine (fun _ => some (Json.num 5)) "5".toList = [] :=
  ⟨(parseCodexJsonLine_total_defensive (fun _ => none) "not json".toList).1 rfl,
    (parseCodexJsonLine_total_defensive (fun _ => some (Json.num 5)) "5".toList).2
      (Json.num 5) rfl rfl rfl rfl rfl rfl⟩

/-- C10: a well-formed record of message kind whose role field is the
string user parses to the empty event list — echoed input prompts never
produce display events. -/
theorem parseCodexJsonLine_skips_user_echo :
    ∀ (jsonParse : List Char → Option Json) (line : List Char) (e : Json),
      jsonParse line = some e →
      condMessage e = true →
      Json.getField e "role" = some (Json.str "user") →
      parseCodexJsonLine jsonParse line = [] := by
  intro jp line e he hm hrole
  by_cases hl : line.isEmpty
  · simp [parseCodexJsonLine, hl]
  · simp only [parseCodexJsonLine, hl, Bool.false_eq_true, if_neg, not_false_iff, he]
    cases e with
    | null => simp [condMessage, Json.getField, jsStrEq, jsTruthy] at hm
    | _ => simp [codexLineEvents, hm, hrole, jsStrEq]

/-- C10 witness: a user-role message record with text content parses to
no events. -/
theorem parseCodexJsonLine_skips_user_echo_witness :
    parseCodexJsonLine
      (fun _ => some (Json.obj
        [("type", Json.str "message"), ("role", Json.str "user"),
          ("content", Json.str "echoed prompt")]))
      "x".toList = [] :=
  parseCodexJsonLine_skips_user_echo _ "x".toList
    (Json.obj [("type", Json.str "message"), ("role", Json.str "user"),
      ("content", Json.str "echoed prompt")]) rfl rfl rfl
